import Mathlib

/- Verification development for the College_ChatBot repository.
The Python sources `src/preprocess.py` and `src/chatbot.py` are embedded
shallowly: strings are `String`/`List Char`, the regular-expression
searches of the source are translated into explicit left-to-right scanner
functions with the same matching semantics, and the external collaborators
(the rapidfuzz similarity scorers, the trained statistical classifier, the
JSON data catalogs, and Python `random.choice`) are supplied through a
`Config` record of parameters, since their code and data live outside the
repository sources. -/

/-! ### Character and string utilities -/

/-- Python `\s` (ASCII whitespace as used by `str.split`, `str.strip`,
regex): space 32, tab 9, newline 10, carriage return 13, vertical tab 11,
form feed 12. -/
def isSpaceCh (c : Char) : Bool :=
  c.toNat = 32 || c.toNat = 9 || c.toNat = 10 || c.toNat = 13
    || c.toNat = 11 || c.toNat = 12

/-- Python regex `\d` (ASCII digits `0`-`9`, codepoints 48-57). -/
def isDigitCh (c : Char) : Bool :=
  48 ≤ c.toNat && c.toNat ≤ 57

/-- Python regex `\w` (word character: letter `a`-`z` / `A`-`Z`, digit, or
underscore). -/
def isWordCh (c : Char) : Bool :=
  isDigitCh c || (97 ≤ c.toNat && c.toNat ≤ 122)
    || (65 ≤ c.toNat && c.toNat ≤ 90) || c.toNat = 95

/-- Characters kept by `clean_text`: the class `[a-z0-9\s?.]`
(`a`-`z` are codepoints 97-122, `?` is 63, `.` is 46). -/
def isAllowedCh (c : Char) : Bool :=
  (97 ≤ c.toNat && c.toNat ≤ 122) || isDigitCh c || isSpaceCh c
    || c.toNat = 63 || c.toNat = 46

/-- Python `str.lower()` (character-wise, ASCII letters). -/
def lowerStr (s : String) : String :=
  String.mk (s.toList.map Char.toLower)

/-- Does the text begin with the pattern? -/
def chLeads : List Char → List Char → Bool
  | [], _ => true
  | _ :: _, [] => false
  | a :: as, b :: bs => a = b && chLeads as bs

/-- Does the pattern occur as a contiguous substring of the text?
Embeds the Python operator `pattern in text`. -/
def chHas (p : List Char) : List Char → Bool
  | [] => p.isEmpty
  | b :: bs => chLeads p (b :: bs) || chHas p bs

/-- Python `pat in s` on strings. -/
def hasSub (pat s : String) : Bool :=
  chHas pat.toList s.toList

/-- Python `str.strip()`. -/
def trimCh (l : List Char) : List Char :=
  ((l.dropWhile isSpaceCh).reverse.dropWhile isSpaceCh).reverse

/-- Maximal runs of non-whitespace characters, in order: Python `str.split()`. -/
def splitNs : List Char → List (List Char)
  | [] => []
  | c :: cs =>
    if isSpaceCh c then splitNs cs
    else
      match cs with
      | [] => [[c]]
      | d :: _ =>
        if isSpaceCh d then [c] :: splitNs cs
        else
          match splitNs cs with
          | [] => [[c]]
          | w :: ws => (c :: w) :: ws

/-- Number of whitespace-separated tokens: Python `len(s.split())`. -/
def countTokens (s : String) : Nat :=
  (splitNs s.toList).length

/-- Join word lists with single spaces: Python `' '.join(words)`. -/
def joinSp : List (List Char) → List Char
  | [] => []
  | [w] => w
  | w :: ws => w ++ ' ' :: joinSp ws

/-- Python `' '.join(text.split())`: collapse runs of whitespace. -/
def collapseWs (l : List Char) : List Char :=
  joinSp (splitNs l)

/-! ### Embedding of `src/preprocess.py` (`clean_text`) -/

/-- Length of the URL keyword (`http` or `www`) leading the list, 0 if neither. -/
def urlKw (l : List Char) : Nat :=
  if l.take 4 = ['h', 't', 't', 'p'] then 4
  else if l.take 3 = ['w', 'w', 'w'] then 3
  else 0

/-- Does a match of `http\S+|www\S+` begin at the head of the list? -/
def urlStartAt (l : List Char) : Bool :=
  urlKw l ≠ 0 && (l.drop (urlKw l) ≠ [] && !isSpaceCh ((l.drop (urlKw l)).headD ' '))

/-- Remainder of the list after the greedy URL match starting at its head. -/
def urlRest (l : List Char) : List Char :=
  (l.drop (urlKw l)).dropWhile (fun c => !isSpaceCh c)

/-- Does a match of `http\S+|www\S+` begin at some position of the list? -/
def hasUrlStartPos : List Char → Bool
  | [] => false
  | c :: cs => urlStartAt (c :: cs) || hasUrlStartPos cs

/-- Fueled scanner for `re.sub(r'http\S+|www\S+', '', text)`: leftmost matches
are removed and scanning resumes after each match. -/
def removeUrlsF : Nat → List Char → List Char
  | _, [] => []
  | 0, l => l
  | fuel + 1, c :: cs =>
    if urlStartAt (c :: cs) then removeUrlsF fuel (urlRest (c :: cs))
    else c :: removeUrlsF fuel cs

/-- Embeds `re.sub(r'http\S+|www\S+', '', text)`. -/
def removeUrls (l : List Char) : List Char :=
  removeUrlsF l.length l

/-- Does `\S+@\S+` match inside this maximal non-space run?  As derived from
the backtracking semantics, the run is matched (and then deleted whole) iff
it contains an `@` that is neither its first nor its last character. -/
def emailRun (run : List Char) : Bool :=
  ((run.drop 1).dropLast).contains '@'

/-- Fueled scanner for `re.sub(r'\S+@\S+', '', text)`: whitespace is kept,
and each maximal non-space run is deleted when the email pattern matches it. -/
def removeEmailsF : Nat → List Char → List Char
  | _, [] => []
  | 0, l => l
  | fuel + 1, c :: cs =>
    if isSpaceCh c then c :: removeEmailsF fuel cs
    else
      (if emailRun ((c :: cs).takeWhile (fun d => !isSpaceCh d)) then []
       else (c :: cs).takeWhile (fun d => !isSpaceCh d))
        ++ removeEmailsF fuel ((c :: cs).dropWhile (fun d => !isSpaceCh d))

/-- Embeds `re.sub(r'\S+@\S+', '', text)`. -/
def removeEmails (l : List Char) : List Char :=
  removeEmailsF l.length l

/-- Embedding of `clean_text` from `src/preprocess.py`: lowercase, strip URLs,
strip email addresses, keep only `[a-z0-9\s?.]`, collapse whitespace. -/
def clean_text (s : String) : String :=
  String.mk (collapseWs ((removeEmails (removeUrls (s.toList.map Char.toLower))).filter isAllowedCh))

/-! ### Data model of `src/chatbot.py` -/

/-- Entity slots extracted from one utterance (`Chatbot.extract_entities`). -/
structure EntitySet where
  department : Option String
  semester : Option String
  faculty_name : Option String
deriving DecidableEq, Repr

/-- One recorded dialogue turn (an element of `self.context`). -/
structure Turn where
  input : String
  intent : String
  entities : EntitySet
deriving DecidableEq, Repr

/-- Mutable chatbot state: the bounded context history and the sticky
department (`self.context`, `self.current_department`). -/
structure BotState where
  context : List Turn
  current_department : Option String
deriving DecidableEq, Repr

/-- Per-department record of the external `courses.json` catalog. -/
structure DeptData where
  semesters : List (String × List String)
  fees : String
  duration : String
  eligibility : String
  specializations : List String
deriving DecidableEq, Repr

/-- External collaborators of the dialogue core, supplied as parameters:
the two rapidfuzz similarity scorers used for intent patterns
(`fuzz.partial_ratio` and `fuzz.token_set_ratio`), the trained statistical
classifier (`IntentClassifier.predict`, returning a tag and probability),
the rapidfuzz-based department slot extractor and the faculty-table slot
extractor of `extract_entities` (both driven by data files outside the
sources), the canned-response table of `intents.json`, Python
`random.choice`, the `courses.json` catalog, and the formatting of the
remaining knowledge-base-driven reply branches (which only read the
read-only `college_info.json` / `faculty.json` / `events.json` data). -/
structure Config where
  scoreP : String → String → Nat
  scoreT : String → String → Nat
  classify : String → String × ℚ
  extractDept : String → Option String
  extractFaculty : String → Option String
  intentResponses : String → List String
  choose : List String → String
  coursesTable : List (String × DeptData)
  renderInfo : String → EntitySet → String

/-! ### Keyword tables of `Chatbot.get_response` -/

/-- The `reset_keywords` list (line 110). -/
def resetKeywords : List String :=
  ["all courses", "all programs", "what courses", "which courses",
   "available courses", "available programs", "show courses", "list courses",
   "show programs", "list programs", "tell me courses", "tell me programs"]

/-- The `dept_keywords` list (line 117). -/
def deptKeywords : List String :=
  ["cse", "computer science", "cs", "ece", "electronics", "mechanical",
   "mech", "civil", "eee", "electrical", "it", "information technology",
   "mca", "mba", "master", "b.tech", "btech", "engineering"]

/-- The `sem_keywords` list (line 121). -/
def semKeywords : List String :=
  ["semester", "sem", "1st", "2nd", "3rd", "4th", "5th", "6th", "7th", "8th",
   "first", "second", "third", "fourth", "fifth", "sixth", "seventh", "eighth"]

/-- The `intent_patterns` table (line 135), in insertion order. -/
def intentPatterns : List (String × String) :=
  [("greeting", "hi hello hey good morning afternoon evening namaste greetings hola howdy"),
   ("goodbye", "bye goodbye see you later exit quit thanks bye farewell"),
   ("thanks", "thank thanks appreciate grateful thankyou"),
   ("college_timings", "college timing time hour schedule open close start working office when does college"),
   ("departments", "what which show list all available department branch stream how many departments tell me about departments"),
   ("facilities", "facility infrastructure campus amenity building what facilities available campus facilities"),
   ("library", "library book digital elib reading room journal library facility library timing"),
   ("hostel", "hostel accommodation residence stay room warden mess hostel facility hostel fee"),
   ("transport", "transport bus shuttle vehicle route pickup bus facility college bus"),
   ("contact", "contact phone email address reach location where find contact details contact number"),
   ("courses", "course subject syllabus curriculum semester sem topic taught program specialization"),
   ("admission", "admission apply enroll eligibility requirement join entry how to apply admission process"),
   ("fees", "fee cost price tuition payment installment money fee structure course fees"),
   ("scholarship", "scholarship financial aid concession waiver free education loan scholarship available"),
   ("placements", "placement job recruit package salary company career opportunity placement record companies visit"),
   ("internship", "internship training industrial project summer internship opportunities"),
   ("faculty", "faculty teacher professor staff lecturer instructor faculty details faculty members"),
   ("principal", "principal director head dean chief who is principal"),
   ("events", "event fest festival workshop seminar conference holiday program upcoming events"),
   ("sports", "sport game gym cricket football basketball athletic fitness sports facility playground"),
   ("clubs", "club society activity extracurricular cultural technical student clubs"),
   ("exams", "exam test assessment evaluation result grade mark examination pattern exam schedule"),
   ("attendance", "attendance present absent leave percentage minimum attendance required attendance policy"),
   ("canteen", "canteen cafeteria food mess lunch breakfast snack canteen facility food available"),
   ("labs", "lab laboratory workshop practical equipment computer lab facility laboratory equipment"),
   ("alumni", "alumni graduate past student network association alumni network")]

/-- The `exact_matches` table (line 170), in insertion order. -/
def exactMatches : List (String × List String) :=
  [("departments", ["departments", "department", "branches", "branch"]),
   ("courses", ["courses", "programs", "what courses"]),
   ("events", ["events", "event", "fest", "festival", "workshop"]),
   ("placements", ["placements", "placement", "companies", "package"]),
   ("hostel", ["hostel", "accommodation", "hostel facility"]),
   ("library", ["library", "library facility", "books"]),
   ("canteen", ["canteen", "cafeteria", "food"]),
   ("labs", ["lab", "laboratory", "computer lab"]),
   ("sports", ["sports", "sport", "gym", "playground"]),
   ("facilities", ["facilities", "infrastructure", "campus"]),
   ("admission", ["admission", "admissions", "how to apply"]),
   ("contact", ["contact", "phone", "email", "address"])]

/-- The `dept_mapping` table of `_handle_courses` (line 444), in insertion order. -/
def deptMapping : List (String × String) :=
  [("cse", "Computer Science Engineering (CSE)"),
   ("computer science", "Computer Science Engineering (CSE)"),
   ("cs", "Computer Science Engineering (CSE)"),
   ("ece", "Electronics & Communication (ECE)"),
   ("electronics", "Electronics & Communication (ECE)"),
   ("mechanical", "Mechanical Engineering"),
   ("mech", "Mechanical Engineering"),
   ("civil", "Civil Engineering"),
   ("eee", "Electrical & Electronics (EEE)"),
   ("electrical", "Electrical & Electronics (EEE)"),
   ("it", "Information Technology (IT)"),
   ("information technology", "Information Technology (IT)"),
   ("mca", "MCA (Master of Computer Applications)"),
   ("mba", "MBA (Master of Business Administration)")]

/-- The three fixed strings of `Chatbot._fallback_response`. -/
def fallback_responses : List String :=
  ["I\x27m not sure I understand. Could you rephrase that?",
   "Sorry, I didn\x27t quite get that. I can help with:\nâ€¢ College timings\nâ€¢ Courses and fees\nâ€¢ Admissions\nâ€¢ Faculty and departments\nâ€¢ Events",
   "I\x27m here to help with college information. Try asking about courses, admissions, faculty, or events!"]

/-! ### Semester extraction (`Chatbot.extract_entities`, lines 55-70) -/

/-- Is the trimmed text a non-empty string of digits?  Embeds
`re.match(r'^\d+$', text.strip())`. -/
def bareInt (t : String) : Bool :=
  trimCh t.toList ≠ [] && (trimCh t.toList).all isDigitCh

/-- Word-boundary test for a scanner standing on a word character: the
previous character must be absent or a non-word character. -/
def boundaryBefore : Option Char → Bool
  | none => true
  | some p => !isWordCh p

/-- Suffix `\s*(\d+)\b` of the first semester regex, anchored at the list
head: skip whitespace greedily, require at least one digit, and require a
word boundary after the maximal digit run.  Returns the captured digits. -/
def semRest (l : List Char) : Option (List Char) :=
  let m := l.dropWhile isSpaceCh
  let ds := m.takeWhile isDigitCh
  let rest := m.dropWhile isDigitCh
  if ds ≠ [] && (rest = [] || !isWordCh (rest.headD ' ')) then some ds else none

/-- Match of `(?:semester|sem)\s*(\d+)\b` anchored at the list head, with
the alternation tried in regex order. -/
def semDigitsAt (l : List Char) : Option (List Char) :=
  match (if chLeads "semester".toList l then semRest (l.drop 8) else none) with
  | some ds => some ds
  | none => if chLeads "sem".toList l then semRest (l.drop 3) else none

/-- Leftmost-match scan for `\b(?:semester|sem)\s*(\d+)\b`
(`re.search`, pattern 1 of semester extraction). -/
def scanSemKw (prev : Option Char) : List Char → Option (List Char)
  | [] => none
  | c :: cs =>
    match (if boundaryBefore prev then semDigitsAt (c :: cs) else none) with
    | some ds => some ds
    | none => scanSemKw (some c) cs

/-- Optional ordinal suffix `(?:st|nd|rd|th)?` followed by `\b`, anchored at
the list head (the part of pattern 3 after the digit). -/
def ordTailOk (cs : List Char) : Bool :=
  ((chLeads "st".toList cs || chLeads "nd".toList cs
      || chLeads "rd".toList cs || chLeads "th".toList cs)
    && (cs.drop 2 = [] || !isWordCh ((cs.drop 2).headD ' ')))
  || (cs = [] || !isWordCh (cs.headD ' '))

/-- Match of `([1-8])(?:st|nd|rd|th)?\b` anchored at the list head
(`1`-`8` are codepoints 49-56). -/
def digitAt : List Char → Option Char
  | [] => none
  | c :: cs =>
    if (49 ≤ c.toNat && c.toNat ≤ 56) && ordTailOk cs then some c else none

/-- Leftmost-match scan for `\b([1-8])(?:st|nd|rd|th)?\b`
(`re.search`, pattern 3 of semester extraction). -/
def scanDigit (prev : Option Char) : List Char → Option Char
  | [] => none
  | c :: cs =>
    match (if boundaryBefore prev then digitAt (c :: cs) else none) with
    | some d => some d
    | none => scanDigit (some c) cs

/-- Semester slot of `extract_entities` (lines 55-70): pattern 1, else the
bare-integer pattern restricted to "1".."8", else pattern 3. -/
def extractSemester (t : String) : Option String :=
  match scanSemKw none t.toList with
  | some ds => some (String.mk ds)
  | none =>
    if bareInt t then
      if (["1", "2", "3", "4", "5", "6", "7", "8"] : List String).contains
          (String.mk (trimCh t.toList)) then
        some (String.mk (trimCh t.toList))
      else none
    else (scanDigit none t.toList).map (fun c => String.mk [c])

/-- Embedding of `Chatbot.extract_entities`: the semester slot is computed
by the regex cascade above; the department and faculty slots are produced
by the external catalog-driven matchers of the `Config`.  All slots are
applied to the lowercased input, as in the source. -/
def extract_entities (cfg : Config) (text : String) : EntitySet :=
  { department := cfg.extractDept (lowerStr text)
    semester := extractSemester (lowerStr text)
    faculty_name := cfg.extractFaculty (lowerStr text) }

/-! ### Intent resolution cascade (`Chatbot.get_response`, lines 107-223) -/

/-- Reset condition of lines 110-113: a reset keyword occurs in the
lowercased input, or the stripped input is one of the bare course words. -/
def resetCond (t : String) : Bool :=
  resetKeywords.any (fun k => hasSub k t)
    || (["courses", "programs", "course", "program"] : List String).contains
        (String.mk (trimCh t.toList))

/-- Stage C fold over `intent_patterns` (lines 199-210): for each pattern
take the maximum of the two rapidfuzz scores and keep the strictly best
intent, first seen winning ties. -/
def fuzzyFold (cfg : Config) (t : String) : Option String × Nat :=
  intentPatterns.foldl
    (fun acc p =>
      let fs := max (cfg.scoreP t p.2) (cfg.scoreT t p.2)
      if fs > acc.2 then (some p.1, fs) else acc)
    (none, 0)

/-- Stages A-C of the intent cascade on the lowercased input `t` (lines
117-214): the forced `courses` override for short department/semester
queries, then the exact short-phrase table, then the fuzzy pattern match
with its 60-point acceptance threshold.  Returns the resolved tag with its
score, or `none` when the statistical classifier must be consulted. -/
def resolveIntentABC (cfg : Config) (ctx : List Turn) (t : String) : Option (String × Nat) :=
  let isDeptQ := deptKeywords.any (fun k => hasSub k t)
  let bare := bareInt t
  let isSemQ := semKeywords.any (fun k => hasSub k t) || bare
  let isSemQ2 := isSemQ || (bare && ctx.any (fun p => p.intent = "courses"))
  if (isDeptQ || isSemQ2) && decide (countTokens t ≤ 5) then some ("courses", 100)
  else
    match (if decide (countTokens t ≤ 3) && !bare then
            (exactMatches.find? (fun p => p.2.any (fun k => hasSub k t))).map
              (fun p => (p.1, 100))
          else none) with
    | some r => some r
    | none =>
      let best := fuzzyFold cfg t
      match best.1 with
      | some m => if best.2 > 60 then some (m, best.2) else none
      | none => none

/-! ### Context update (`Chatbot.get_response`, lines 228-244) -/

/-- The fixed context capacity `self.max_context` (line 28). -/
def maxContext : Nat := 10

/-- Context update of lines 238-244: append the new turn, then keep only
the last `max_context` turns. -/
def appendTurn (ctx : List Turn) (t : Turn) : List Turn :=
  let l := ctx ++ [t]
  if l.length > maxContext then l.drop (l.length - maxContext) else l

/-- Special handling of lines 229-235: a bare-integer input whose entities
carry neither semester nor department has its semester backfilled from the
stripped input when some context turn has intent `courses`. -/
def backfillSem (ctx : List Turn) (input : String) (es : EntitySet) : EntitySet :=
  if es.semester = none && es.department = none && bareInt input
      && ctx.any (fun p => p.intent = "courses") then
    { es with semester := some (String.mk (trimCh input.toList)) }
  else es

/-! ### Response generation (`Chatbot._generate_intent_response` and helpers) -/

/-- Numbered listing `1. item` per line, as in the enumerated loops of the
response builders. -/
def numberLines (items : List String) : String :=
  String.join (items.enum.map (fun p => toString (p.1 + 1) ++ ". " ++ p.2 ++ "\n"))

/-- Bulleted listing of `Chatbot._format_list_response`. -/
def formatListResp (title : String) (items : List String) : String :=
  if items = [] then title ++ "\n\nNo items available."
  else title ++ "\n\n" ++ String.intercalate "\n" (items.map (fun it => "â€¢ " ++ it))

/-- Program listing of `_handle_courses` when no department resolves (lines
494-511): all catalog names, split into UG and PG by the substrings
`MCA` / `MBA`. -/
def renderAllPrograms (cfg : Config) : String :=
  let names := cfg.coursesTable.map (fun p => p.1)
  let pg := names.filter (fun n => hasSub "MCA" n || hasSub "MBA" n)
  let ug := names.filter (fun n => !(hasSub "MCA" n || hasSub "MBA" n))
  "**Available Programs**\n\n**UG Programs (B.Tech):**\n" ++ numberLines ug
    ++ "\n**PG Programs:**\n" ++ numberLines pg
    ++ "\nAsk about any specific program for details!"

/-- Subject listing of `_handle_courses` for a valid semester (lines 519-526). -/
def renderSemester (d sm : String) (subjects : List String) : String :=
  "**" ++ d ++ "**\n\n**Semester " ++ sm ++ " Subjects:**\n\n" ++ numberLines subjects
    ++ "\nTotal: " ++ toString subjects.length ++ " subjects"

/-- Department summary of `_handle_courses` (lines 527-544). -/
def renderDeptSummary (d : String) (dd : DeptData) : String :=
  "**" ++ d ++ "**\n\n"
    ++ (if dd.duration ≠ "" then "Duration: " ++ dd.duration ++ "\n" else "")
    ++ "Fees: " ++ dd.fees ++ "\n"
    ++ (if dd.eligibility ≠ "" then "Eligibility: " ++ dd.eligibility ++ "\n" else "")
    ++ (if dd.specializations ≠ [] then
          "Specializations: " ++ String.intercalate ", " dd.specializations ++ "\n"
        else "")
    ++ "\nSemesters: " ++ String.intercalate ", " (dd.semesters.map (fun q => q.1))
    ++ "\nAsk about specific semester for subject details!"

/-- Department recovery from earlier context turns (`_handle_courses`,
lines 474-491): scan the reversed history for a `courses` turn, taking its
extracted department, or else the first `dept_mapping` keyword occurring in
its recorded input; continue to older turns otherwise. -/
def recoverDept : List Turn → Option String
  | [] => none
  | p :: rest =>
    if p.intent = "courses" then
      match p.entities.department with
      | some pd => some pd
      | none =>
        match deptMapping.find? (fun q => hasSub q.1 (lowerStr p.input)) with
        | some q => some q.2
        | none => recoverDept rest
    else recoverDept rest

/-- Department and sticky-department resolution of `_handle_courses`
(lines 435-491), on a given lowercased last recorded input `u`: the
extracted department is overridden by the first `dept_mapping` keyword
occurring in `u` (which also updates the sticky department), and a missing
department falls back to the sticky department, then to recovery from
earlier context turns (which also updates the sticky department).  Returns
(resolved department, new sticky department). -/
def courseDeptCore (st : BotState) (es : EntitySet) (u : String) :
    Option String × Option String :=
  let kwHit := deptMapping.find? (fun p => hasSub p.1 u)
  let dept1 : Option String := match kwHit with
                               | some p => some p.2
                               | none => es.department
  let sticky1 : Option String := match kwHit with
                                 | some p => some p.2
                                 | none => st.current_department
  match dept1 with
  | some d => (some d, sticky1)
  | none =>
    match st.current_department with
    | some d => (some d, sticky1)
    | none =>
      if st.context.length > 1 then
        match recoverDept st.context.dropLast.reverse with
        | some d => (some d, some d)
        | none => (none, sticky1)
      else (none, sticky1)

/-- Reply construction of `_handle_courses` (lines 493-544) for a resolved
department: the full program listing when none resolves, an apology for a
department missing from the catalog, the semester subject list when the
extracted semester is valid for the department, and the department summary
otherwise. -/
def renderCourses (cfg : Config) (es : EntitySet) : Option String → String
  | none => renderAllPrograms cfg
  | some d =>
    match cfg.coursesTable.find? (fun p => p.1 == d) with
    | none => "Sorry, I don\x27t have information about " ++ d
        ++ ". Please ask about available departments."
    | some p =>
      match es.semester with
      | some sm =>
        match p.2.semesters.find? (fun q => q.1 == sm) with
        | some q => renderSemester d sm q.2
        | none => renderDeptSummary d p.2
      | none => renderDeptSummary d p.2

/-- Embedding of `Chatbot._handle_courses` (lines 433-544).  It receives the
state with the current turn already appended (as in the source, which reads
`self.context[-1]` for the current input), and returns the reply together
with the new value of `self.current_department`, the only state field the
source assigns. -/
def handle_courses (cfg : Config) (st : BotState) (es : EntitySet) : String × Option String :=
  let userInput := match st.context.getLast? with
                   | some tr => lowerStr tr.input
                   | none => ""
  (renderCourses cfg es (courseDeptCore st es userInput).1,
    (courseDeptCore st es userInput).2)

/-- Embedding of `Chatbot._handle_fees` (lines 546-558). -/
def handle_fees (cfg : Config) (es : EntitySet) : String :=
  match es.department with
  | some d =>
    match cfg.coursesTable.find? (fun p => p.1 == d) with
    | some p => d ++ " Fees:\n\n" ++ p.2.fees
    | none => formatListResp "Fee Structure"
        (cfg.coursesTable.map (fun p => p.1 ++ ": " ++ p.2.fees))
  | none => formatListResp "Fee Structure"
      (cfg.coursesTable.map (fun p => p.1 ++ ": " ++ p.2.fees))

/-- Intent tags whose reply branches only read the external knowledge base
(`college_info.json`, `faculty.json`, `events.json`) and mutate nothing. -/
def knownInfoTags : List String :=
  ["college_timings", "departments", "facilities", "library", "hostel",
   "transport", "contact", "admission", "scholarship", "placements",
   "internship", "faculty", "principal", "events", "sports", "clubs",
   "exams", "attendance", "canteen", "labs", "alumni"]

/-- Embedding of `Chatbot._generate_intent_response` (lines 258-431): canned
responses first, then the dispatch on the intent tag, with the unknown-tag
fallback at the end.  Returns the reply together with the new value of
`self.current_department` (only the `courses` branch ever assigns it). -/
def generate_intent_response (cfg : Config) (st : BotState) (tag : String)
    (es : EntitySet) : String × Option String :=
  if cfg.intentResponses tag ≠ [] then
    (cfg.choose (cfg.intentResponses tag), st.current_department)
  else if tag = "courses" then handle_courses cfg st es
  else if tag = "fees" then (handle_fees cfg es, st.current_department)
  else if knownInfoTags.contains tag then (cfg.renderInfo tag es, st.current_department)
  else (cfg.choose fallback_responses, st.current_department)

/-- Tail of `get_response` once an intent tag is fixed (lines 226-256):
extract entities, backfill the semester, append the turn with truncation,
then generate the reply. -/
def finishTurn (cfg : Config) (s : BotState) (dept0 : Option String)
    (input : String) (tag : String) : String × BotState :=
  let es := backfillSem s.context input (extract_entities cfg input)
  let ctx2 := appendTurn s.context { input := input, intent := tag, entities := es }
  let st2 : BotState := { context := ctx2, current_department := dept0 }
  let r := generate_intent_response cfg st2 tag es
  (r.1, { context := ctx2, current_department := r.2 })

/-- Embedding of `Chatbot.get_response` (lines 97-256): reset the sticky
department on reset keywords, run the cascade, fall back to the statistical
classifier whose sub-0.25-probability answers short-circuit to a fallback
reply before any context update, and otherwise finish the turn. -/
def get_response (cfg : Config) (s : BotState) (input : String) : String × BotState :=
  let t := lowerStr input
  let dept0 := if resetCond t then none else s.current_department
  match resolveIntentABC cfg s.context t with
  | some r => finishTurn cfg s dept0 input r.1
  | none =>
    let pr := cfg.classify input
    if pr.2 < 1 / 4 then
      (cfg.choose fallback_responses, { context := s.context, current_department := dept0 })
    else finishTurn cfg s dept0 input pr.1

/-! ### Concrete environments used by witnesses and counterexamples -/

/-- A minimal concrete environment: both fuzzy scorers reject everything,
the classifier is maximally unsure, no catalog data is present, no intent
has canned responses, and `random.choice` picks the first candidate. -/
def cfg0 : Config :=
  { scoreP := fun _ _ => 0
    scoreT := fun _ _ => 0
    classify := fun _ => ("greeting", 0)
    extractDept := fun _ => none
    extractFaculty := fun _ => none
    intentResponses := fun _ => []
    choose := fun l => l.headD ""
    coursesTable := []
    renderInfo := fun tag _ => "INFO:" ++ tag }

/-- Environment for the sticky-department scenario: the external fuzzy
department extractor recognizes the misspelled department mention
`mecanical sem 3` as `Mechanical Engineering` (its similarity score clears
the 60-point threshold of `extract_entities`), which is consistent with the
catalog-driven matcher the source delegates to. -/
def cfg6 : Config :=
  { cfg0 with
      extractDept := fun t =>
        if t = "mecanical sem 3" then some "Mechanical Engineering" else none
      coursesTable := [("Mechanical Engineering",
        { semesters := [("3", ["Thermodynamics", "Fluid Mechanics"])]
          fees := "50000", duration := "4 years", eligibility := ""
          specializations := [] })] }

/-! ### Basic lemmas about the string utilities -/

theorem chLeads_self (l : List Char) : chLeads l l = true := by
  induction l with
  | nil => rfl
  | cons a as ih => simp [chLeads, ih]

theorem chHas_self (l : List Char) : chHas l l = true := by
  cases l with
  | nil => rfl
  | cons a as => simp [chHas, chLeads_self]

theorem hasSub_self (s : String) : hasSub s s = true := by
  simp [hasSub, chHas_self]

/-! ### Unfolding lemmas for `get_response` -/

theorem get_response_resolved (cfg : Config) (s : BotState) (input : String)
    (r : String × Nat)
    (h : resolveIntentABC cfg s.context (lowerStr input) = some r) :
    get_response cfg s input =
      finishTurn cfg s (if resetCond (lowerStr input) then none else s.current_department)
        input r.1 := by
  simp only [get_response, h]

theorem get_response_lowconf (cfg : Config) (s : BotState) (input : String)
    (h : resolveIntentABC cfg s.context (lowerStr input) = none)
    (hc : (cfg.classify input).2 < 1 / 4) :
    get_response cfg s input =
      (cfg.choose fallback_responses,
        { context := s.context
          current_department :=
            if resetCond (lowerStr input) then none else s.current_department }) := by
  simp only [get_response, h]
  rw [if_pos hc]

theorem get_response_hiconf (cfg : Config) (s : BotState) (input : String)
    (h : resolveIntentABC cfg s.context (lowerStr input) = none)
    (hc : ¬((cfg.classify input).2 < 1 / 4)) :
    get_response cfg s input =
      finishTurn cfg s (if resetCond (lowerStr input) then none else s.current_department)
        input (cfg.classify input).1 := by
  simp only [get_response, h]
  rw [if_neg hc]

theorem finishTurn_context (cfg : Config) (s : BotState) (dept0 : Option String)
    (input tag : String) :
    (finishTurn cfg s dept0 input tag).2.context =
      appendTurn s.context
        { input := input, intent := tag
          entities := backfillSem s.context input (extract_entities cfg input) } := rfl

theorem finishTurn_sticky (cfg : Config) (s : BotState) (dept0 : Option String)
    (input tag : String) :
    (finishTurn cfg s dept0 input tag).2.current_department =
      (generate_intent_response cfg
        { context := appendTurn s.context
            { input := input, intent := tag
              entities := backfillSem s.context input (extract_entities cfg input) }
          current_department := dept0 } tag
        (backfillSem s.context input (extract_entities cfg input))).2 := rfl

/-! ### Claim C1 -/

/-- C1: for every input whose lowercased text is exactly one of the fixed
department keywords (such inputs have at most 5 whitespace-separated
tokens), stages A-C of `get_response` resolve the intent to `courses` with
maximal confidence via the Stage A forced override, for every environment
and every context — in particular the exact-match table, the fuzzy scorers
and the statistical classifier are never consulted. -/
theorem c1_dept_keyword_forces_courses (cfg : Config) (ctx : List Turn)
    (input kw : String) (hkw : kw ∈ deptKeywords) (hlow : lowerStr input = kw) :
    resolveIntentABC cfg ctx (lowerStr input) = some ("courses", 100) := by
  have htok : countTokens kw ≤ 5 := by
    have hall : ∀ k ∈ deptKeywords, countTokens k ≤ 5 := by decide
    exact hall kw hkw
  have hd : deptKeywords.any (fun k => hasSub k kw) = true :=
    List.any_eq_true.mpr ⟨kw, hkw, hasSub_self kw⟩
  rw [hlow]
  simp [resolveIntentABC, hd, htok]

/-- Witness for C1 at the concrete input `CSE`. -/
theorem c1_witness :
    resolveIntentABC cfg0 [] (lowerStr "CSE") = some ("courses", 100) :=
  c1_dept_keyword_forces_courses cfg0 [] "CSE" "cse" (by decide) (by decide)

/-! ### Claim C2 -/

/-- C2 counterexample: the input `facilities` has one token, is not a bare
integer, and is listed in the exact-match table for the intent
`facilities`, yet the cascade resolves it to `courses`, because the
department keyword `it` occurs inside the word `facilities` and triggers
the Stage A override first.  This refutes the claim that every short
exact-keyword input resolves to the keyword's own intent. -/
theorem c2_counterexample :
    countTokens "facilities" ≤ 3 ∧ bareInt "facilities" = false ∧
    (exactMatches.find? (fun p => p.2.any (fun k => hasSub k "facilities"))).map
        (fun p => p.1) = some "facilities" ∧
    resolveIntentABC cfg0 [] "facilities" = some ("courses", 100) := by
  refine ⟨by decide, by decide, by decide, by decide⟩

/-- C2 amended: for lowercased inputs of at most 3 tokens that are not a
bare integer and that contain no department keyword and no semester keyword
(so that the Stage A override cannot fire), if `pr` is the first entry of
the exact-match table one of whose keywords occurs in the input, then the
cascade resolves to `pr`'s intent with maximal confidence, for every
environment — overriding any fuzzy-stage winner. -/
theorem c2_exact_match_amended (cfg : Config) (ctx : List Turn) (t : String)
    (pr : String × List String)
    (hd : deptKeywords.any (fun k => hasSub k t) = false)
    (hs : semKeywords.any (fun k => hasSub k t) = false)
    (hb : bareInt t = false) (ht : countTokens t ≤ 3)
    (hf : exactMatches.find? (fun p => p.2.any (fun k => hasSub k t)) = some pr) :
    resolveIntentABC cfg ctx t = some (pr.1, 100) := by
  simp [resolveIntentABC, hd, hs, hb, ht, hf]

/-- Witness for the amended C2 at the concrete input `library`. -/
theorem c2_witness : resolveIntentABC cfg0 [] "library" = some ("library", 100) :=
  c2_exact_match_amended cfg0 [] "library" ("library", ["library", "library facility", "books"])
    (by decide) (by decide) (by decide) (by decide) (by decide)

/-! ### Claim C3 -/

/-- C3 counterexample: the bare-integer input `9` arrives with an empty
context (so no context turn has intent `courses`), yet Stage A still forces
the intent to `courses`: line 125 of the source sets `is_sem_query` for
every bare-integer input unconditionally, making the context check of
lines 128-132 redundant.  This refutes the claim that the forcing happens
only when the most recent context turn's intent is `courses`. -/
theorem c3_counterexample :
    bareInt "9" = true ∧
    ([] : List Turn).any (fun p => p.intent = "courses") = false ∧
    resolveIntentABC cfg0 [] "9" = some ("courses", 100) := by
  refine ⟨by decide, by decide, by decide⟩

/-- C3 amended: every bare-integer input of at most 5 tokens is forced to
intent `courses` by Stage A, regardless of the context contents. -/
theorem c3_bare_integer_amended (cfg : Config) (ctx : List Turn) (t : String)
    (hb : bareInt t = true) (ht : countTokens t ≤ 5) :
    resolveIntentABC cfg ctx t = some ("courses", 100) := by
  simp [resolveIntentABC, hb, ht]

/-- Witness for the amended C3 at the concrete input `42` with a non-empty,
non-courses context. -/
theorem c3_witness :
    resolveIntentABC cfg0 [⟨"hi", "greeting", ⟨none, none, none⟩⟩]
      "42" = some ("courses", 100) :=
  c3_bare_integer_amended cfg0 _ "42" (by decide) (by decide)

/-! ### Claim C4 -/

/-- C4: when stages A-C all reject and the statistical classifier's
probability is below 0.25, `get_response` returns one of the three fixed
fallback strings — never a knowledge-base-formatted reply — provided the
random pick behaves like `random.choice` (returns an element of its
non-empty argument).  The embedding is a total function, so no exception
can reach the caller. -/
theorem c4_low_confidence_fallback (cfg : Config) (s : BotState) (input : String)
    (habc : resolveIntentABC cfg s.context (lowerStr input) = none)
    (hconf : (cfg.classify input).2 < 1 / 4)
    (hchoose : ∀ l : List String, l ≠ [] → cfg.choose l ∈ l) :
    (get_response cfg s input).1 ∈ fallback_responses := by
  rw [get_response_lowconf cfg s input habc hconf]
  exact hchoose fallback_responses (by decide)

/-- Witness for C4 at the out-of-domain input of the specification. -/
theorem c4_witness :
    (get_response cfg0 { context := [], current_department := none }
        "what is the weather today").1 ∈ fallback_responses := by
  refine c4_low_confidence_fallback cfg0 _ _ (by decide) (by norm_num [cfg0]) ?_
  intro l hl
  cases l with
  | nil => exact absurd rfl hl
  | cons a as => simp [cfg0]

/-! ### Claim C5 -/

theorem appendTurn_eq_drop (ctx : List Turn) (t : Turn) :
    appendTurn ctx t = (ctx ++ [t]).drop ((ctx ++ [t]).length - maxContext) := by
  simp only [appendTurn]
  split
  · rfl
  · next h =>
    have h0 : (ctx ++ [t]).length - maxContext = 0 := by omega
    rw [h0, List.drop_zero]

theorem length_appendTurn_le (ctx : List Turn) (t : Turn) :
    (appendTurn ctx t).length ≤ maxContext := by
  rw [appendTurn_eq_drop, List.length_drop]
  have hm : maxContext = 10 := rfl
  omega

theorem appendTurn_getLast? (ctx : List Turn) (t : Turn) :
    (appendTurn ctx t).getLast? = some t := by
  rw [appendTurn_eq_drop]
  have hle : (ctx ++ [t]).length - maxContext ≤ ctx.length := by
    have hm : maxContext = 10 := rfl
    simp only [List.length_append, List.length_cons, List.length_nil]
    omega
  rw [List.drop_append_of_le_length hle]
  simp

theorem foldl_appendTurn (ts : List Turn) :
    ∀ ctx : List Turn, ctx.length ≤ maxContext →
      List.foldl appendTurn ctx ts = (ctx ++ ts).drop ((ctx ++ ts).length - maxContext) := by
  induction ts with
  | nil =>
    intro ctx h
    rw [List.foldl_nil, List.append_nil]
    have h0 : ctx.length - maxContext = 0 := by omega
    rw [h0, List.drop_zero]
  | cons t ts ih =>
    intro ctx h
    rw [List.foldl_cons, ih (appendTurn ctx t) (length_appendTurn_le ctx t),
      appendTurn_eq_drop]
    have hj : (ctx ++ [t]).length - maxContext ≤ (ctx ++ [t]).length := by omega
    rw [← List.drop_append_of_le_length hj, List.drop_drop]
    rw [List.append_cons ctx t ts]
    congr 1
    simp only [List.length_drop, List.length_append, List.length_cons]
    omega

/-- C5: the context store is bounded and FIFO.  First part: `get_response`
preserves the invariant that the history holds at most `max_context`
turns.  Second part: starting from an empty history, appending
`max_context + k` turns through the context-update step leaves exactly the
last `max_context` of them, in their original insertion order (the `k`
oldest turns are evicted from the front). -/
theorem c5_context_bounded_fifo :
    (∀ (cfg : Config) (s : BotState) (input : String),
        s.context.length ≤ maxContext →
        (get_response cfg s input).2.context.length ≤ maxContext) ∧
    (∀ (ts : List Turn) (k : Nat), ts.length = maxContext + k →
        List.foldl appendTurn [] ts = ts.drop k) := by
  constructor
  · intro cfg s input hs
    cases habc : resolveIntentABC cfg s.context (lowerStr input) with
    | some r =>
      rw [get_response_resolved cfg s input r habc, finishTurn_context]
      exact length_appendTurn_le _ _
    | none =>
      by_cases hc : (cfg.classify input).2 < 1 / 4
      · rw [get_response_lowconf cfg s input habc hc]
        exact hs
      · rw [get_response_hiconf cfg s input habc hc, finishTurn_context]
        exact length_appendTurn_le _ _
  · intro ts k hk
    have h := foldl_appendTurn ts [] (by simp)
    rw [List.nil_append] at h
    rw [h, hk]
    congr 1
    omega

/-- Witness for C5: both parts applied at concrete inputs — a concrete
call keeps the bound, and twelve turns fold down to the last ten. -/
theorem c5_witness :
    (get_response cfg0 { context := [], current_department := none } "hello").2.context.length
        ≤ maxContext ∧
    List.foldl appendTurn []
        (List.replicate 12 (⟨"a", "courses", ⟨none, none, none⟩⟩ : Turn)) =
      (List.replicate 12 (⟨"a", "courses", ⟨none, none, none⟩⟩ : Turn)).drop 2 :=
  ⟨c5_context_bounded_fifo.1 cfg0 _ "hello" (by decide),
   c5_context_bounded_fifo.2 _ 2 (by decide)⟩

/-! ### Claim C9 -/

/-- C9: the semester slot of `extract_entities` follows the fixed priority
order with the first match winning.  (1) When the scan for
`\b(?:semester|sem)\s*(\d+)\b` succeeds, its captured digits are used
verbatim (no 1-8 restriction).  (2) Otherwise, a bare-integer input yields
its stripped digits exactly when they form one of "1".."8" (and nothing
otherwise — pattern 3 is not consulted).  (3) Otherwise, the scan for a
single digit 1-8 with optional ordinal suffix decides the slot, absent
when it fails.  The embedding is a total function, so extraction never
raises, and the unmatched slot is `none`. -/
theorem c9_semester_priority (cfg : Config) (text : String) :
    (∀ ds : List Char, scanSemKw none (lowerStr text).toList = some ds →
        (extract_entities cfg text).semester = some (String.mk ds)) ∧
    (scanSemKw none (lowerStr text).toList = none → bareInt (lowerStr text) = true →
        (extract_entities cfg text).semester =
          (if (["1", "2", "3", "4", "5", "6", "7", "8"] : List String).contains
              (String.mk (trimCh (lowerStr text).toList))
           then some (String.mk (trimCh (lowerStr text).toList)) else none)) ∧
    (scanSemKw none (lowerStr text).toList = none → bareInt (lowerStr text) = false →
        (extract_entities cfg text).semester =
          (scanDigit none (lowerStr text).toList).map (fun c => String.mk [c])) := by
  refine ⟨?_, ?_, ?_⟩
  · intro ds h
    have h' : scanSemKw none (lowerStr text).data = some ds := h
    simp [extract_entities, extractSemester, h']
  · intro h hb
    have h' : scanSemKw none (lowerStr text).data = none := h
    simp [extract_entities, extractSemester, h', hb]
  · intro h hb
    have h' : scanSemKw none (lowerStr text).data = none := h
    simp [extract_entities, extractSemester, h', hb]

/-- Witness for C9: a `semester NN` phrase yields its digits verbatim even
outside 1-8, a stray bare integer outside 1-8 yields no slot, and an
ordinal digit mention is found anywhere in the text. -/
theorem c9_witness :
    (extract_entities cfg0 "Semester 12").semester = some "12" ∧
    (extract_entities cfg0 " 9 ").semester = none ∧
    (extract_entities cfg0 "subjects in 3rd sem please").semester = some "3" := by
  refine ⟨?_, ?_, ?_⟩
  · rw [(c9_semester_priority cfg0 "Semester 12").1 ['1', '2'] (by decide)]
  · rw [(c9_semester_priority cfg0 " 9 ").2.1 (by decide) (by decide)]
    decide
  · rw [(c9_semester_priority cfg0 "subjects in 3rd sem please").2.2 (by decide) (by decide)]
    decide

/-! ### Claim C7 -/

theorem generate_sticky_of_ne_courses (cfg : Config) (st : BotState) (tag : String)
    (es : EntitySet) (h : tag ≠ "courses") :
    (generate_intent_response cfg st tag es).2 = st.current_department := by
  unfold generate_intent_response
  split_ifs with h1 h2 h3
  all_goals rfl

/-- C7 counterexample: response generation is not side-effect-free.  With
an empty sticky department and a context whose last recorded input is
`cse`, generating the reply for the `courses` intent (for an environment
where `courses` has no canned responses, as in the shipped data) assigns
the sticky department, so the post-state differs from the pre-state. -/
theorem c7_counterexample :
    (generate_intent_response cfg0
        (⟨[⟨"cse", "courses", ⟨none, none, none⟩⟩], none⟩ : BotState)
        "courses" ⟨none, none, none⟩).2 = some "Computer Science Engineering (CSE)" ∧
    (generate_intent_response cfg0
        (⟨[⟨"cse", "courses", ⟨none, none, none⟩⟩], none⟩ : BotState)
        "courses" ⟨none, none, none⟩).2 ≠
      (⟨[⟨"cse", "courses", ⟨none, none, none⟩⟩], none⟩ : BotState).current_department := by
  refine ⟨by decide, by decide⟩

/-- C7 amended: response generation never touches the context history (in
the embedding it returns only the reply string and the new sticky
department, because `_generate_intent_response` and its helpers never
assign `self.context`), and every intent other than `courses` also leaves
the sticky department unchanged; the `courses` handler, however, may
reassign the sticky department. -/
theorem c7_generate_pure_amended (cfg : Config) (st : BotState) (tag : String)
    (es : EntitySet) (h : tag ≠ "courses") :
    (generate_intent_response cfg st tag es).2 = st.current_department :=
  generate_sticky_of_ne_courses cfg st tag es h

/-- Witness for the amended C7 at the `fees` intent. -/
theorem c7_witness :
    (generate_intent_response cfg0 (⟨[], none⟩ : BotState) "fees"
        ⟨none, none, none⟩).2 = none :=
  c7_generate_pure_amended cfg0 ⟨[], none⟩ "fees" ⟨none, none, none⟩ (by decide)

/-! ### Claim C6 -/

theorem courseDeptCore_kw (st : BotState) (es : EntitySet) (u : String)
    (pr : String × String)
    (hkw : deptMapping.find? (fun p => hasSub p.1 u) = some pr) :
    (courseDeptCore st es u).2 = some pr.2 := by
  simp [courseDeptCore, hkw]

theorem courseDeptCore_nokw (st : BotState) (es : EntitySet) (u : String) (d : String)
    (hkw : deptMapping.find? (fun p => hasSub p.1 u) = none)
    (hst : st.current_department = some d) :
    (courseDeptCore st es u).2 = some d := by
  simp only [courseDeptCore, hkw]
  cases hes : es.department with
  | some d2 => simp [hst]
  | none => simp [hst]

theorem courseDeptCore_ne_none (st : BotState) (es : EntitySet) (u : String) (d : String)
    (hst : st.current_department = some d) :
    (courseDeptCore st es u).2 ≠ none := by
  simp only [courseDeptCore]
  cases hkw : deptMapping.find? (fun p => hasSub p.1 u) with
  | some pr => simp
  | none =>
    cases hes : es.department with
    | some d2 => simp [hst]
    | none => simp [hst]

theorem generate_sticky_kw (cfg : Config) (st : BotState) (es : EntitySet)
    (tr : Turn) (pr : String × String)
    (hlast : st.context.getLast? = some tr)
    (hkw : deptMapping.find? (fun p => hasSub p.1 (lowerStr tr.input)) = some pr)
    (hcanned : cfg.intentResponses "courses" = []) :
    (generate_intent_response cfg st "courses" es).2 = some pr.2 := by
  unfold generate_intent_response
  rw [if_neg (by simp [hcanned]), if_pos rfl]
  simp only [handle_courses, hlast]
  exact courseDeptCore_kw st es (lowerStr tr.input) pr hkw

theorem generate_sticky_nokw (cfg : Config) (st : BotState) (tag : String)
    (es : EntitySet) (tr : Turn) (d : String)
    (hlast : st.context.getLast? = some tr)
    (hkw : deptMapping.find? (fun p => hasSub p.1 (lowerStr tr.input)) = none)
    (hst : st.current_department = some d) :
    (generate_intent_response cfg st tag es).2 = some d := by
  by_cases htag : tag = "courses"
  · subst htag
    unfold generate_intent_response
    split_ifs with h1 h2 h3 h4
    · exact hst
    · show (handle_courses cfg st es).2 = some d
      simp only [handle_courses, hlast]
      exact courseDeptCore_nokw st es (lowerStr tr.input) d hkw hst
    · exact absurd rfl h2
    · exact absurd rfl h2
    · exact absurd rfl h2
  · rw [generate_sticky_of_ne_courses cfg st tag es htag, hst]

theorem generate_sticky_ne_none (cfg : Config) (st : BotState) (tag : String)
    (es : EntitySet) (d : String) (hst : st.current_department = some d) :
    (generate_intent_response cfg st tag es).2 ≠ none := by
  by_cases htag : tag = "courses"
  · subst htag
    unfold generate_intent_response
    split_ifs with h1 h2 h3 h4
    · simp [hst]
    · show (handle_courses cfg st es).2 ≠ none
      simp only [handle_courses]
      exact courseDeptCore_ne_none st es _ d hst
    · exact absurd rfl h2
    · exact absurd rfl h2
    · exact absurd rfl h2
  · rw [generate_sticky_of_ne_courses cfg st tag es htag, hst]
    simp

/-- C6 counterexample: a department can be newly detected in the current
turn's input without the sticky department being set.  In the environment
`cfg6` the fuzzy entity extractor detects `Mechanical Engineering` in the
misspelled input `mecanical sem 3` (recorded in the appended turn's entity
set, exactly as `extract_entities` would), the turn resolves to `courses`
via Stage A, yet after the call the sticky department is still absent:
`_handle_courses` only assigns it from its literal keyword table or from
earlier context turns, never from the extracted department. -/
theorem c6_counterexample :
    (get_response cfg6 (⟨[], none⟩ : BotState) "mecanical sem 3").2.context.getLast?
        = some ⟨"mecanical sem 3", "courses",
            ⟨some "Mechanical Engineering", some "3", none⟩⟩ ∧
    (get_response cfg6 (⟨[], none⟩ : BotState) "mecanical sem 3").2.current_department
        = none := by
  refine ⟨by decide, by decide⟩

/-- C6 amended: the sticky department is set whenever a `dept_mapping`
keyword occurs in the current turn's lowercased input and the turn is
handled as `courses` (in particular whenever the input is short enough for
Stage A and `courses` has no canned responses); it persists unchanged
across turns that contain no such keyword and no reset keyword; and when
it is present it can become absent only through a reset-keyword turn.  A
department detected only by the fuzzy entity extractor does not set it
(see the counterexample). -/
theorem c6_sticky_department_amended :
    (∀ (cfg : Config) (s : BotState) (input : String) (pr : String × String),
        deptMapping.find? (fun p => hasSub p.1 (lowerStr input)) = some pr →
        countTokens (lowerStr input) ≤ 5 →
        cfg.intentResponses "courses" = [] →
        (get_response cfg s input).2.current_department = some pr.2) ∧
    (∀ (cfg : Config) (s : BotState) (input : String) (d : String),
        resetCond (lowerStr input) = false →
        deptMapping.find? (fun p => hasSub p.1 (lowerStr input)) = none →
        s.current_department = some d →
        (get_response cfg s input).2.current_department = some d) ∧
    (∀ (cfg : Config) (s : BotState) (input : String) (d : String),
        resetCond (lowerStr input) = false →
        s.current_department = some d →
        (get_response cfg s input).2.current_department ≠ none) := by
  refine ⟨?_, ?_, ?_⟩
  · intro cfg s input pr hfind htok hcanned
    have hmem : pr ∈ deptMapping := List.mem_of_find?_eq_some hfind
    have hsub := List.find?_some hfind
    have hmap : ∀ p ∈ deptMapping, p.1 ∈ deptKeywords := by decide
    have hd : deptKeywords.any (fun k => hasSub k (lowerStr input)) = true :=
      List.any_eq_true.mpr ⟨pr.1, hmap pr hmem, hsub⟩
    have habc : resolveIntentABC cfg s.context (lowerStr input) = some ("courses", 100) := by
      simp [resolveIntentABC, hd, htok]
    rw [get_response_resolved cfg s input _ habc, finishTurn_sticky]
    exact generate_sticky_kw cfg _ _
      ⟨input, "courses", backfillSem s.context input (extract_entities cfg input)⟩ pr
      (appendTurn_getLast? _ _) hfind hcanned
  · intro cfg s input d hreset hkw hst
    have hd0 : (if resetCond (lowerStr input) then none else s.current_department)
        = some d := by
      simp [hreset, hst]
    cases habc : resolveIntentABC cfg s.context (lowerStr input) with
    | some r =>
      rw [get_response_resolved cfg s input r habc, finishTurn_sticky]
      exact generate_sticky_nokw cfg _ r.1 _
        ⟨input, r.1, backfillSem s.context input (extract_entities cfg input)⟩ d
        (appendTurn_getLast? _ _) hkw hd0
    | none =>
      by_cases hc : (cfg.classify input).2 < 1 / 4
      · rw [get_response_lowconf cfg s input habc hc]
        exact hd0
      · rw [get_response_hiconf cfg s input habc hc, finishTurn_sticky]
        exact generate_sticky_nokw cfg _ _ _
          ⟨input, (cfg.classify input).1,
            backfillSem s.context input (extract_entities cfg input)⟩ d
          (appendTurn_getLast? _ _) hkw hd0
  · intro cfg s input d hreset hst
    have hd0 : (if resetCond (lowerStr input) then none else s.current_department)
        = some d := by
      simp [hreset, hst]
    cases habc : resolveIntentABC cfg s.context (lowerStr input) with
    | some r =>
      rw [get_response_resolved cfg s input r habc, finishTurn_sticky]
      exact generate_sticky_ne_none cfg _ r.1 _ d hd0
    | none =>
      by_cases hc : (cfg.classify input).2 < 1 / 4
      · rw [get_response_lowconf cfg s input habc hc]
        show (if resetCond (lowerStr input) then none else s.current_department) ≠ none
        rw [hd0]
        simp
      · rw [get_response_hiconf cfg s input habc hc, finishTurn_sticky]
        exact generate_sticky_ne_none cfg _ _ _ d hd0

/-- Witness for the amended C6: the input `cse courses` sets the sticky
department to the canonical CSE name. -/
theorem c6_witness :
    (get_response cfg0 (⟨[], none⟩ : BotState) "cse courses").2.current_department
      = some "Computer Science Engineering (CSE)" :=
  c6_sticky_department_amended.1 cfg0 ⟨[], none⟩ "cse courses"
    ("cse", "Computer Science Engineering (CSE)") (by decide) (by decide) (by decide)

/-! ### Claim C10 -/

/-- C10 counterexample: on the low-confidence fallback path the sticky
department is NOT always left as it was.  The reset-keyword clearing of
lines 109-114 runs before the early return of line 223, so an input
containing a reset keyword (here `tell me courses` inside an input long
enough to escape stages A and B) that falls through to a sub-0.25
classifier answer clears the sticky department even though no turn is
appended. -/
theorem c10_counterexample :
    (get_response cfg0 (⟨[], some "Civil Engineering"⟩ : BotState)
        "please tell me courses now").2.context = [] ∧
    (get_response cfg0 (⟨[], some "Civil Engineering"⟩ : BotState)
        "please tell me courses now").2.current_department = none ∧
    (⟨[], some "Civil Engineering"⟩ : BotState).current_department ≠ none := by
  have habc : resolveIntentABC cfg0
      (BotState.mk [] (some "Civil Engineering")).context
      (lowerStr "please tell me courses now") = none := by decide
  have hc : (cfg0.classify "please tell me courses now").2 < 1 / 4 := by
    norm_num [cfg0]
  rw [get_response_lowconf cfg0 _ _ habc hc]
  refine ⟨rfl, ?_, by decide⟩
  show (if resetCond (lowerStr "please tell me courses now") then none
        else some "Civil Engineering") = none
  rw [if_pos (by decide)]

/-- C10 amended: on the low-confidence fallback path `get_response` returns
before the context-update step, so the history is unchanged and no turn is
appended; the sticky department is also unchanged provided the input
contains no reset keyword — the reset-keyword clearing runs before the
early return and may clear it otherwise (see the counterexample). -/
theorem c10_fallback_no_update_amended (cfg : Config) (s : BotState) (input : String)
    (habc : resolveIntentABC cfg s.context (lowerStr input) = none)
    (hconf : (cfg.classify input).2 < 1 / 4) :
    (get_response cfg s input).2.context = s.context ∧
      (resetCond (lowerStr input) = false →
        (get_response cfg s input).2.current_department = s.current_department) := by
  rw [get_response_lowconf cfg s input habc hconf]
  refine ⟨rfl, fun hreset => ?_⟩
  show (if resetCond (lowerStr input) then none else s.current_department)
      = s.current_department
  rw [hreset]
  rfl

/-- Witness for the amended C10 at a reset-free low-confidence input. -/
theorem c10_witness :
    (get_response cfg0 (⟨[], some "Civil Engineering"⟩ : BotState)
        "hello zzz").2.context = [] ∧
    (get_response cfg0 (⟨[], some "Civil Engineering"⟩ : BotState)
        "hello zzz").2.current_department = some "Civil Engineering" := by
  have h := c10_fallback_no_update_amended cfg0
    (⟨[], some "Civil Engineering"⟩ : BotState) "hello zzz"
    (by decide) (by norm_num [cfg0])
  exact ⟨h.1, h.2 (by decide)⟩

/-! ### Claim C8 -/

theorem urlRest_length_lt (l : List Char) (h : urlStartAt l = true) :
    (urlRest l).length < l.length := by
  simp only [urlStartAt, Bool.and_eq_true, decide_eq_true_eq] at h
  obtain ⟨hk, hne, -⟩ := h
  have h1 : (urlRest l).length ≤ (l.drop (urlKw l)).length :=
    (List.dropWhile_sublist _).length_le
  have h2 : (l.drop (urlKw l)).length = l.length - urlKw l := List.length_drop _ _
  have h4 : 0 < (l.drop (urlKw l)).length := List.length_pos.mpr hne
  omega

theorem removeUrlsF_congr : ∀ (f1 f2 : Nat) (l : List Char),
    l.length ≤ f1 → l.length ≤ f2 → removeUrlsF f1 l = removeUrlsF f2 l := by
  intro f1
  induction f1 with
  | zero =>
    intro f2 l h1 _
    have hl : l = [] := List.length_eq_zero.mp (Nat.le_zero.mp h1)
    subst hl
    cases f2 <;> rfl
  | succ f ih =>
    intro f2 l h1 h2
    cases l with
    | nil => cases f2 <;> rfl
    | cons c cs =>
      cases f2 with
      | zero => simp at h2
      | succ f2' =>
        simp only [removeUrlsF]
        by_cases hu : urlStartAt (c :: cs) = true
        · rw [if_pos hu, if_pos hu]
          have hlt := urlRest_length_lt _ hu
          simp only [List.length_cons] at h1 h2 hlt
          exact ih f2' _ (by omega) (by omega)
        · rw [if_neg hu, if_neg hu]
          simp only [List.length_cons] at h1 h2
          rw [ih f2' cs (by omega) (by omega)]

theorem removeUrls_cons (c : Char) (cs : List Char) :
    removeUrls (c :: cs) =
      if urlStartAt (c :: cs) then removeUrls (urlRest (c :: cs))
      else c :: removeUrls cs := by
  show removeUrlsF (c :: cs).length (c :: cs) = _
  simp only [List.length_cons, removeUrlsF]
  by_cases hu : urlStartAt (c :: cs) = true
  · rw [if_pos hu, if_pos hu]
    have hlt := urlRest_length_lt _ hu
    simp only [List.length_cons] at hlt
    exact removeUrlsF_congr _ _ _ (by omega) (le_refl _)
  · rw [if_neg hu, if_neg hu]
    rfl

theorem removeUrls_id_of_no_url : ∀ l : List Char,
    hasUrlStartPos l = false → removeUrls l = l := by
  intro l
  induction l with
  | nil => intro _; rfl
  | cons c cs ih =>
    intro h
    simp only [hasUrlStartPos, Bool.or_eq_false_iff] at h
    rw [removeUrls_cons, if_neg (by simp [h.1]), ih h.2]

theorem emailRest_length_lt (c : Char) (cs : List Char) (h : isSpaceCh c = false) :
    ((c :: cs).dropWhile (fun d => !isSpaceCh d)).length < (c :: cs).length := by
  rw [List.dropWhile_cons, if_pos (by simp [h])]
  have hle := (List.dropWhile_sublist (l := cs) (fun d => !isSpaceCh d)).length_le
  simp only [List.length_cons]
  omega

theorem removeEmailsF_congr : ∀ (f1 f2 : Nat) (l : List Char),
    l.length ≤ f1 → l.length ≤ f2 → removeEmailsF f1 l = removeEmailsF f2 l := by
  intro f1
  induction f1 with
  | zero =>
    intro f2 l h1 _
    have hl : l = [] := List.length_eq_zero.mp (Nat.le_zero.mp h1)
    subst hl
    cases f2 <;> rfl
  | succ f ih =>
    intro f2 l h1 h2
    cases l with
    | nil => cases f2 <;> rfl
    | cons c cs =>
      cases f2 with
      | zero => simp at h2
      | succ f2' =>
        simp only [removeEmailsF]
        by_cases hsp : isSpaceCh c = true
        · rw [if_pos hsp, if_pos hsp]
          simp only [List.length_cons] at h1 h2
          rw [ih f2' cs (by omega) (by omega)]
        · rw [if_neg hsp, if_neg hsp]
          have hlt := emailRest_length_lt c cs (Bool.not_eq_true _ ▸ eq_false_of_ne_true hsp)
          simp only [List.length_cons] at h1 h2 hlt
          rw [ih f2' _ (by omega) (by omega)]

theorem removeEmails_cons (c : Char) (cs : List Char) :
    removeEmails (c :: cs) =
      if isSpaceCh c then c :: removeEmails cs
      else
        (if emailRun ((c :: cs).takeWhile (fun d => !isSpaceCh d)) then []
         else (c :: cs).takeWhile (fun d => !isSpaceCh d))
          ++ removeEmails ((c :: cs).dropWhile (fun d => !isSpaceCh d)) := by
  show removeEmailsF (c :: cs).length (c :: cs) = _
  simp only [List.length_cons, removeEmailsF]
  by_cases hsp : isSpaceCh c = true
  · rw [if_pos hsp, if_pos hsp]
    rfl
  · rw [if_neg hsp, if_neg hsp]
    have hlt := emailRest_length_lt c cs (eq_false_of_ne_true hsp)
    simp only [List.length_cons] at hlt
    rw [removeEmailsF_congr _ _ _ (by omega) (le_refl _)]
    rfl

theorem removeEmails_id_of_no_at : ∀ l : List Char, '@' ∉ l → removeEmails l = l := by
  have H : ∀ n, ∀ l : List Char, l.length ≤ n → '@' ∉ l → removeEmails l = l := by
    intro n
    induction n with
    | zero =>
      intro l hl _
      have : l = [] := List.length_eq_zero.mp (Nat.le_zero.mp hl)
      subst this
      rfl
    | succ n ih =>
      intro l hl hat
      cases l with
      | nil => rfl
      | cons c cs =>
        rw [removeEmails_cons]
        by_cases hsp : isSpaceCh c = true
        · rw [if_pos hsp]
          have hat' : '@' ∉ cs := fun hm => hat (by simp [hm])
          simp only [List.length_cons] at hl
          rw [ih cs (by omega) hat']
        · rw [if_neg hsp]
          have hrun : emailRun ((c :: cs).takeWhile (fun d => !isSpaceCh d)) = false := by
            rw [emailRun]
            by_contra hc
            have hc' : (((((c :: cs).takeWhile
                (fun d => !isSpaceCh d)).drop 1).dropLast).contains '@') = true := by
              revert hc
              cases h :
                (((((c :: cs).takeWhile (fun d => !isSpaceCh d)).drop 1).dropLast).contains '@') <;>
                  simp
            have hm1 : '@' ∈ ((((c :: cs).takeWhile (fun d => !isSpaceCh d)).drop 1).dropLast) := by
              simpa using hc'
            have hm2 : '@' ∈ (((c :: cs).takeWhile (fun d => !isSpaceCh d)).drop 1) :=
              (List.dropLast_sublist _).subset hm1
            have hm3 : '@' ∈ ((c :: cs).takeWhile (fun d => !isSpaceCh d)) :=
              (List.drop_sublist _ _).subset hm2
            exact hat ((List.takeWhile_sublist _).subset hm3)
          rw [hrun]
          simp only [Bool.false_eq_true, if_false]
          have hlt := emailRest_length_lt c cs (eq_false_of_ne_true hsp)
          simp only [List.length_cons] at hl hlt
          have hat' : '@' ∉ (c :: cs).dropWhile (fun d => !isSpaceCh d) :=
            fun hm => hat ((List.dropWhile_sublist _).subset hm)
          rw [ih _ (by omega) hat']
          exact List.takeWhile_append_dropWhile _ _
  intro l hat
  exact H l.length l (le_refl _) hat

theorem splitNs_nil : splitNs [] = [] := rfl

theorem splitNs_cons (c : Char) (cs : List Char) :
    splitNs (c :: cs) =
      if isSpaceCh c then splitNs cs
      else
        match cs with
        | [] => [[c]]
        | d :: _ =>
          if isSpaceCh d then [c] :: splitNs cs
          else
            match splitNs cs with
            | [] => [[c]]
            | w :: ws => (c :: w) :: ws := rfl

theorem splitNs_one (c : Char) :
    splitNs [c] = if isSpaceCh c then [] else [[c]] := rfl

theorem splitNs_cons_cons (c d : Char) (ds : List Char) :
    splitNs (c :: d :: ds) =
      if isSpaceCh c then splitNs (d :: ds)
      else if isSpaceCh d then [c] :: splitNs (d :: ds)
      else
        match splitNs (d :: ds) with
        | [] => [[c]]
        | w :: ws => (c :: w) :: ws := rfl

theorem joinSp_cons2 (w w2 : List Char) (ws : List (List Char)) :
    joinSp (w :: w2 :: ws) = w ++ ' ' :: joinSp (w2 :: ws) := rfl

theorem splitNs_words : ∀ (l : List Char), ∀ w ∈ splitNs l,
    w ≠ [] ∧ ∀ c ∈ w, isSpaceCh c = false := by
  intro l
  induction l with
  | nil => intro w hw; simp [splitNs_nil] at hw
  | cons c cs ih =>
    intro w hw
    by_cases hc : isSpaceCh c = true
    · rw [splitNs_cons, if_pos hc] at hw
      exact ih w hw
    · have hc' : isSpaceCh c = false := eq_false_of_ne_true hc
      cases cs with
      | nil =>
        rw [splitNs_one, if_neg hc] at hw
        simp only [List.mem_singleton] at hw
        subst hw
        exact ⟨by simp, by simpa using hc'⟩
      | cons d ds =>
        rw [splitNs_cons_cons, if_neg hc] at hw
        by_cases hd : isSpaceCh d = true
        · rw [if_pos hd] at hw
          rcases List.mem_cons.mp hw with h' | h'
          · subst h'
            exact ⟨by simp, by simpa using hc'⟩
          · exact ih w h'
        · rw [if_neg hd] at hw
          cases hsp : splitNs (d :: ds) with
          | nil =>
            rw [hsp] at hw
            have hw2 : w ∈ [[c]] := hw
            simp only [List.mem_singleton] at hw2
            subst hw2
            exact ⟨by simp, by simpa using hc'⟩
          | cons w' ws =>
            rw [hsp] at hw
            have hw2 : w ∈ (c :: w') :: ws := hw
            rcases List.mem_cons.mp hw2 with h' | h'
            · subst h'
              have hw' := ih w' (by rw [hsp]; exact List.mem_cons_self _ _)
              refine ⟨by simp, ?_⟩
              intro x hx
              rcases List.mem_cons.mp hx with hx' | hx'
              · subst hx'; exact hc'
              · exact hw'.2 x hx'
            · exact ih w (by rw [hsp]; exact List.mem_cons_of_mem _ h')

theorem mem_of_mem_splitNs : ∀ (l : List Char), ∀ w ∈ splitNs l, ∀ c ∈ w, c ∈ l := by
  intro l
  induction l with
  | nil => intro w hw; simp [splitNs_nil] at hw
  | cons c cs ih =>
    intro w hw x hx
    by_cases hc : isSpaceCh c = true
    · rw [splitNs_cons, if_pos hc] at hw
      exact List.mem_cons_of_mem _ (ih w hw x hx)
    · cases cs with
      | nil =>
        rw [splitNs_one, if_neg hc] at hw
        simp only [List.mem_singleton] at hw
        subst hw
        simpa using hx
      | cons d ds =>
        rw [splitNs_cons_cons, if_neg hc] at hw
        by_cases hd : isSpaceCh d = true
        · rw [if_pos hd] at hw
          rcases List.mem_cons.mp hw with h' | h'
          · subst h'
            have hxc : x = c := by simpa using hx
            subst hxc
            simp
          · exact List.mem_cons_of_mem _ (ih w h' x hx)
        · rw [if_neg hd] at hw
          cases hsp : splitNs (d :: ds) with
          | nil =>
            rw [hsp] at hw
            have hw2 : w ∈ [[c]] := hw
            simp only [List.mem_singleton] at hw2
            subst hw2
            have hxc : x = c := by simpa using hx
            subst hxc
            simp
          | cons w' ws =>
            rw [hsp] at hw
            have hw2 : w ∈ (c :: w') :: ws := hw
            rcases List.mem_cons.mp hw2 with h' | h'
            · subst h'
              rcases List.mem_cons.mp hx with hx' | hx'
              · subst hx'; simp
              · have := ih w' (by rw [hsp]; exact List.mem_cons_self _ _) x hx'
                exact List.mem_cons_of_mem _ this
            · have := ih w (by rw [hsp]; exact List.mem_cons_of_mem _ h') x hx
              exact List.mem_cons_of_mem _ this

theorem mem_joinSp : ∀ (ws : List (List Char)) (c : Char), c ∈ joinSp ws →
    (∃ w ∈ ws, c ∈ w) ∨ c = ' ' := by
  intro ws
  induction ws with
  | nil => intro c hc; simp [joinSp] at hc
  | cons w ws ih =>
    intro c hc
    cases ws with
    | nil =>
      left
      exact ⟨w, by simp, by simpa [joinSp] using hc⟩
    | cons w2 ws2 =>
      rw [joinSp_cons2] at hc
      rcases List.mem_append.mp hc with h | h
      · left; exact ⟨w, by simp, h⟩
      · rcases List.mem_cons.mp h with h' | h'
        · right; exact h'
        · rcases ih c h' with ⟨w3, hw3, hc3⟩ | h''
          · left; exact ⟨w3, by simp [hw3], hc3⟩
          · right; exact h''

theorem splitNs_run : ∀ w : List Char, w ≠ [] →
    (∀ c ∈ w, isSpaceCh c = false) → splitNs w = [w] := by
  intro w
  induction w with
  | nil => intro h _; exact absurd rfl h
  | cons c cs ih =>
    intro _ hns
    have hc : isSpaceCh c = false := hns c (by simp)
    cases cs with
    | nil => simp [splitNs_one, hc]
    | cons d ds =>
      have hd : isSpaceCh d = false := hns d (by simp)
      rw [splitNs_cons_cons, if_neg (by simp [hc]), if_neg (by simp [hd])]
      rw [ih (by simp) (fun x hx => hns x (List.mem_cons_of_mem _ hx))]

theorem splitNs_run_space : ∀ (w r : List Char), w ≠ [] →
    (∀ c ∈ w, isSpaceCh c = false) → splitNs (w ++ ' ' :: r) = w :: splitNs r := by
  intro w
  induction w with
  | nil => intro r h _; exact absurd rfl h
  | cons c cs ih =>
    intro r _ hns
    have hc : isSpaceCh c = false := hns c (by simp)
    cases cs with
    | nil =>
      simp only [List.cons_append, List.nil_append]
      rw [splitNs_cons_cons, if_neg (by simp [hc]), if_pos (by decide)]
      rw [splitNs_cons, if_pos (by decide)]
    | cons d ds =>
      have hd : isSpaceCh d = false := hns d (by simp)
      simp only [List.cons_append]
      rw [splitNs_cons_cons, if_neg (by simp [hc]), if_neg (by simp [hd])]
      have hih := ih r (by simp) (fun x hx => hns x (List.mem_cons_of_mem _ hx))
      simp only [List.cons_append] at hih
      rw [hih]

theorem splitNs_joinSp : ∀ ws : List (List Char),
    (∀ w ∈ ws, w ≠ [] ∧ ∀ c ∈ w, isSpaceCh c = false) → splitNs (joinSp ws) = ws := by
  intro ws
  induction ws with
  | nil => intro _; rfl
  | cons w ws ih =>
    intro h
    cases ws with
    | nil =>
      show splitNs (joinSp [w]) = [w]
      exact splitNs_run w (h w (by simp)).1 (h w (by simp)).2
    | cons w2 ws2 =>
      rw [joinSp_cons2]
      rw [splitNs_run_space w _ (h w (by simp)).1 (h w (by simp)).2]
      rw [ih (fun x hx => h x (List.mem_cons_of_mem _ hx))]

theorem collapseWs_idem (l : List Char) : collapseWs (collapseWs l) = collapseWs l := by
  show joinSp (splitNs (joinSp (splitNs l))) = joinSp (splitNs l)
  rw [splitNs_joinSp (splitNs l) (splitNs_words l)]

theorem mem_collapseWs (l : List Char) (c : Char) (hc : c ∈ collapseWs l) :
    c ∈ l ∨ c = ' ' := by
  rcases mem_joinSp (splitNs l) c hc with ⟨w, hw, hcw⟩ | h
  · left; exact mem_of_mem_splitNs l w hw c hcw
  · right; exact h

theorem toLower_eq_self_of_allowed (c : Char) (h : isAllowedCh c = true) :
    c.toLower = c := by
  have hn : ¬(65 ≤ c.toNat ∧ c.toNat ≤ 90) := by
    simp only [isAllowedCh, isDigitCh, isSpaceCh, Bool.or_eq_true, Bool.and_eq_true,
      decide_eq_true_eq] at h
    omega
  unfold Char.toLower
  rw [if_neg hn]

theorem map_toLower_eq_self (l : List Char) (h : ∀ c ∈ l, isAllowedCh c = true) :
    l.map Char.toLower = l := by
  induction l with
  | nil => rfl
  | cons a as ih =>
    simp only [List.map_cons]
    rw [toLower_eq_self_of_allowed a (h a (by simp)),
      ih (fun c hc => h c (List.mem_cons_of_mem _ hc))]

theorem mk_toList (s : String) : String.mk s.toList = s := by
  cases s
  rfl

theorem clean_out_allowed (s : String) :
    ∀ c ∈ (clean_text s).toList, isAllowedCh c = true := by
  intro c hc
  have hc' : c ∈ collapseWs
      ((removeEmails (removeUrls (s.toList.map Char.toLower))).filter isAllowedCh) := hc
  rcases mem_collapseWs _ c hc' with h | h
  · exact (List.mem_filter.mp h).2
  · subst h; decide

/-- C8 counterexample: `clean_text` is not idempotent.  On the input
`ht~tpx` the character filter removes `~` and manufactures the substring
`httpx`, which the URL stripper of a second pass then deletes entirely:
`clean_text "ht~tpx" = "httpx"` but `clean_text "httpx" = ""`. -/
theorem c8_counterexample :
    clean_text (clean_text "ht~tpx") ≠ clean_text "ht~tpx" := by decide

/-- C8 amended: `clean_text` is idempotent on every input whose cleaned
form contains no URL-shaped substring (`http` or `www` immediately
followed by a non-space character).  Since the cleaned form can contain
neither `@` nor uppercase letters nor disallowed characters nor repeated
whitespace, the URL stripper is the only pass that can act on it again. -/
theorem c8_clean_text_idem_amended (s : String)
    (h : hasUrlStartPos (clean_text s).toList = false) :
    clean_text (clean_text s) = clean_text s := by
  have hall : ∀ c ∈ (clean_text s).toList, isAllowedCh c = true := clean_out_allowed s
  have h1 : (clean_text s).toList.map Char.toLower = (clean_text s).toList :=
    map_toLower_eq_self _ hall
  have h2 : removeUrls (clean_text s).toList = (clean_text s).toList :=
    removeUrls_id_of_no_url _ h
  have h3 : removeEmails (clean_text s).toList = (clean_text s).toList :=
    removeEmails_id_of_no_at _ (fun hm => absurd (hall '@' hm) (by decide))
  have h4 : (clean_text s).toList.filter isAllowedCh = (clean_text s).toList :=
    List.filter_eq_self.mpr hall
  have h5 : collapseWs (clean_text s).toList = (clean_text s).toList :=
    collapseWs_idem ((removeEmails (removeUrls (s.toList.map Char.toLower))).filter isAllowedCh)
  show String.mk (collapseWs ((removeEmails (removeUrls
      ((clean_text s).toList.map Char.toLower))).filter isAllowedCh)) = clean_text s
  rw [h1, h2, h3, h4, h5]
  exact mk_toList _

/-- Witness for the amended C8: a clean question re-normalizes to itself. -/
theorem c8_witness :
    clean_text (clean_text "What are the College Timings?")
      = clean_text "What are the College Timings?" :=
  c8_clean_text_idem_amended "What are the College Timings?" (by decide)
